import Mathlib

/-!
A verification development for the AWS SigV4 signing library
(`source/sigv4.c`, `source/sigv4_quicksort.c`).

The C code is shallowly embedded: byte buffers become `List Nat` (one `Nat`
per byte), pointer+length pairs become lists, `int32_t` fields become `Int`,
and functions that write through pointers are modelled as pure functions
returning the status together with the bytes (or indexed stores) they write.
The caller-supplied incremental hash interface is modelled by an abstract
digest function `H : List Nat → List Nat` together with the declared block
length and digest length; an incremental hash context is represented by the
exact list of bytes fed to it since the last `init`, with `final` returning
`H` of those bytes.  C's `%` on `int32_t` is truncated division, mirrored by
`Int.tmod`.  `strncmp` compares byte-by-byte, stopping at the first
difference, at a NUL byte, or after `n` bytes, and only its sign is ever
used, so it is modelled with values `-1 / 0 / 1`.
-/

namespace SigV4Proof

/-- ASCII byte values of a string, used to transcribe C string literals. -/
def asc (s : String) : List Nat := s.data.map Char.toNat

/-- `SigV4Status_t` from `sigv4.h` (including the canonical-support members). -/
inductive SigV4Status where
  | Success
  | InvalidParameter
  | InsufficientMemory
  | ISOFormattingError
  | MaxHeaderPairCountExceeded
  | MaxQueryPairCountExceeded
  | HashError
  deriving DecidableEq, Repr

/-! ## Date subsystem (`sigv4_internal.h`, `sigv4.c`) -/

/-- `SigV4DateTime_t` from `sigv4_internal.h`: the six broken-down fields of a
parsed date, each an `int32_t`. -/
structure SigV4DateTime where
  tm_year : Int := 0
  tm_mon : Int := 0
  tm_mday : Int := 0
  tm_hour : Int := 0
  tm_min : Int := 0
  tm_sec : Int := 0
  deriving DecidableEq, Repr

/-- `MONTH_DAYS` from `sigv4_internal.h`. -/
def daysPerMonth : List Int := [31, 28, 31, 30, 31, 30, 31, 31, 30, 31, 30, 31]

/-- `checkLeap` (`sigv4.c`): accepts a date exactly when it is Feb 29 of a
leap year (as computed by C `%`, i.e. truncated remainder); every other date
yields `SigV4ISOFormattingError`. -/
def checkLeap (d : SigV4DateTime) : SigV4Status :=
  if d.tm_mon = 2 ∧ d.tm_mday = 29 then
    if d.tm_year.tmod 400 ≠ 0 ∧ (d.tm_year.tmod 4 ≠ 0 ∨ d.tm_year.tmod 100 = 0) then
      SigV4Status.ISOFormattingError
    else
      SigV4Status.Success
  else SigV4Status.ISOFormattingError

/-- `validateDateTime` (`sigv4.c`): range checks on the parsed fields, run in
source order.  The day-of-month check is skipped when an earlier check
already failed, and out-of-range days fall through to `checkLeap`.  Only
upper bounds are checked for hour/minute/second (the parser never produces
negative values). -/
def validateDateTime (d : SigV4DateTime) : SigV4Status :=
  let s1 := if d.tm_year < 1900 then SigV4Status.ISOFormattingError else SigV4Status.Success
  let s2 := if d.tm_mon < 1 ∨ 12 < d.tm_mon then SigV4Status.ISOFormattingError else s1
  let s3 :=
    if s2 ≠ SigV4Status.ISOFormattingError ∧
        (d.tm_mday < 1 ∨ daysPerMonth.getD (d.tm_mon - 1).toNat 0 < d.tm_mday) then
      checkLeap d
    else s2
  let s4 := if 23 < d.tm_hour then SigV4Status.ISOFormattingError else s3
  let s5 := if 59 < d.tm_min then SigV4Status.ISOFormattingError else s4
  if 60 < d.tm_sec then SigV4Status.ISOFormattingError else s5

/-- `addToDate` (`sigv4.c`): store one parsed value in the field selected by
the format character (`'*'` and unknown specifiers store nothing). -/
def addToDate (formatChar : Nat) (result : Int) (d : SigV4DateTime) : SigV4DateTime :=
  if formatChar = 'Y'.toNat then { d with tm_year := result }
  else if formatChar = 'M'.toNat then { d with tm_mon := result }
  else if formatChar = 'D'.toNat then { d with tm_mday := result }
  else if formatChar = 'h'.toNat then { d with tm_hour := result }
  else if formatChar = 'm'.toNat then { d with tm_min := result }
  else if formatChar = 's'.toNat then { d with tm_sec := result }
  else d

/-- `MONTH_NAMES` from `sigv4_internal.h`. -/
def monthNames : List (List Nat) :=
  [asc "Jan", asc "Feb", asc "Mar", asc "Apr", asc "May", asc "Jun",
   asc "Jul", asc "Aug", asc "Sep", asc "Oct", asc "Nov", asc "Dec"]

/-- C `strncmp` restricted to its specified sign: compares byte-by-byte as
unsigned chars, stops at the first difference, at a common NUL byte, or
after `n` bytes.  The source only ever calls it with `n` at most the length
of both operands, so exhausting a list returns 0 like hitting the bound. -/
def strncmpC : List Nat → List Nat → Nat → Int
  | _, _, 0 => 0
  | [], _, _ + 1 => 0
  | _ :: _, [], _ + 1 => 0
  | a :: as, b :: bs, n + 1 =>
    if a < b then -1
    else if b < a then 1
    else if a = 0 then 0
    else strncmpC as bs n

/-- The month-table search in `scanValue` (`sigv4.c`): the first index whose
3-letter abbreviation matches the next input bytes, as a 1-based month. -/
def monthMatch (pLoc : List Nat) : Option Nat :=
  ((List.range 12).find? fun i => strncmpC (monthNames.getD i []) pLoc 3 = 0).map (· + 1)

/-- The numeric `while` loop of `scanValue` (`sigv4.c`): consume up to
`remaining` decimal digits, accumulating `result`; returns the accumulated
value and how many of the requested bytes were not digits. -/
def scanDigitsLoop : List Nat → Nat → Int → Int × Nat
  | _, 0, r => (r, 0)
  | [], n + 1, r => (r, n + 1)
  | c :: rest, n + 1, r =>
    if 48 ≤ c ∧ c ≤ 57 then scanDigitsLoop rest n (r * 10 + ((c : Int) - 48))
    else (r, n + 1)

/-- `scanValue` (`sigv4.c`) at input position `pLoc` (the suffix of the date
string starting at `readLoc`): returns whether a `SigV4ISOFormattingError`
occurred, together with the updated date.  `'*'` reads nothing; a length-3
`'M'` field is matched against the month-name table; otherwise exactly
`lenToRead` digits must be present. -/
def scanValue (pLoc : List Nat) (formatChar : Nat) (lenToRead : Nat) (d : SigV4DateTime) :
    Bool × SigV4DateTime :=
  let remaining := if formatChar = '*'.toNat then 0 else lenToRead
  if formatChar = 'M'.toNat ∧ remaining = 3 then
    match monthMatch pLoc with
    | some m => (false, addToDate formatChar (m : Int) d)
    | none => (true, d)
  else
    let (result, remaining') := scanDigitsLoop pLoc remaining 0
    if remaining' ≠ 0 then (true, d) else (false, addToDate formatChar result d)

/-- The format-string loop of `parseDate` (`sigv4.c`).  The input is carried
as the suffix starting at the current read location (all reads of the source
are at `readLoc .. readLoc+lenToRead`).  A `'%'` consumes a width digit and a
specifier from the format; any other format byte must match the input
byte-for-byte.  The boolean is the `SigV4ISOFormattingError` flag, which
stops the loop. -/
def parseLoop (inp : List Nat) (d : SigV4DateTime) (err : Bool) :
    List Nat → SigV4DateTime × Bool
  | [] => (d, err)
  | f :: rest =>
    if err then (d, true)
    else if f = '%'.toNat then
      match rest with
      | l :: c :: rest2 =>
        let n := l - 48
        let (e, d') := scanValue inp c n d
        parseLoop (inp.drop n) d' e rest2
      | _ => (d, err)
    else
      match inp with
      | [] => (d, true)
      | i :: inpRest => if i = f then parseLoop inpRest d err rest else (d, true)

/-- `parseDate` (`sigv4.c`): run the format interpreter; any status other
than `SigV4ISOFormattingError` at the end becomes `SigV4Success`. -/
def parseDate (inp fmt : List Nat) : SigV4Status × SigV4DateTime :=
  let (d, err) := parseLoop inp {} false fmt
  (if err then SigV4Status.ISOFormattingError else SigV4Status.Success, d)

/-- `intToAscii` (`sigv4.c`): the `bufferLen` zero-padded decimal bytes of
`value`, least-significant digit written last, with C truncated `%` and `/`. -/
def intToAscii (value : Int) : Nat → List Nat
  | 0 => []
  | w + 1 => intToAscii (value.tdiv 10) w ++ [(value.tmod 10 + 48).toNat]

/-- `FORMAT_RFC_3339` from `sigv4_internal.h`. -/
def FORMAT_RFC_3339 : List Nat := asc "%4Y-%2M-%2DT%2h:%2m:%2sZ"

/-- `FORMAT_RFC_5322` from `sigv4_internal.h`. -/
def FORMAT_RFC_5322 : List Nat := asc "%3*, %2D %3M %4Y %2h:%2m:%2s GMT"

/-- `SigV4_AwsIotDateToIso8601` (`sigv4.c`).  The input buffer is the byte
list `pDate` (its length plays the role of `dateLen`); `dateISO8601Len` is
the declared capacity of the output buffer.  The second component is the
list of bytes the function writes into the output buffer, which in the
source are stored contiguously from index 0 (`pWriteLoc` starts at
`pDateISO8601` and only advances); no byte is written on any error path. -/
def SigV4_AwsIotDateToIso8601 (pDate : List Nat) (dateISO8601Len : Nat) :
    SigV4Status × List Nat :=
  if pDate.length ≠ 20 ∧ pDate.length ≠ 29 then (SigV4Status.InvalidParameter, [])
  else if dateISO8601Len < 16 then (SigV4Status.InvalidParameter, [])
  else
    let fmt := if pDate.length = 20 then FORMAT_RFC_3339 else FORMAT_RFC_5322
    let (st, d) := parseDate pDate fmt
    let st := if st = SigV4Status.Success then validateDateTime d else st
    if st = SigV4Status.Success then
      (SigV4Status.Success,
        intToAscii d.tm_year 4 ++ intToAscii d.tm_mon 2 ++ intToAscii d.tm_mday 2 ++
        ['T'.toNat] ++ intToAscii d.tm_hour 2 ++ intToAscii d.tm_min 2 ++
        intToAscii d.tm_sec 2 ++ ['Z'.toNat])
    else (st, [])

/-- An RFC 3339 date string `YYYY-MM-DDThh:mm:ssZ` built from broken-down
fields, each rendered with the fixed width the format expects. -/
def render3339 (y mo d h mi s : Nat) : List Nat :=
  intToAscii y 4 ++ [45] ++ intToAscii mo 2 ++ [45] ++ intToAscii d 2 ++ [84] ++
  intToAscii h 2 ++ [58] ++ intToAscii mi 2 ++ [58] ++ intToAscii s 2 ++ [90]

/-- An RFC 5322 date string `Day, DD Mon YYYY hh:mm:ss GMT` built from the
same broken-down fields, with an arbitrary 3-byte day name. -/
def render5322 (n1 n2 n3 y mo d h mi s : Nat) : List Nat :=
  [n1, n2, n3] ++ asc ", " ++ intToAscii d 2 ++ [32] ++ monthNames.getD (mo - 1) [] ++
  [32] ++ intToAscii y 4 ++ [32] ++ intToAscii h 2 ++ [58] ++ intToAscii mi 2 ++ [58] ++
  intToAscii s 2 ++ asc " GMT"

/-! ## URI encoding and query canonicalization (`sigv4.c`) -/

/-- `isalnum` on an ASCII byte. -/
def isalnumAscii (c : Nat) : Prop :=
  (48 ≤ c ∧ c ≤ 57) ∨ (65 ≤ c ∧ c ≤ 90) ∨ (97 ≤ c ∧ c ≤ 122)

instance (c : Nat) : Decidable (isalnumAscii c) := by unfold isalnumAscii; infer_instance

/-- The condition under which `encodeURI` (`sigv4.c`) copies a byte verbatim:
an RFC 3986 unreserved character, or `/` when `encodeSlash` is false. -/
def copiedVerbatim (c : Nat) (encodeSlash : Bool) : Prop :=
  isalnumAscii c ∨ c = '-'.toNat ∨ c = '_'.toNat ∨ c = '.'.toNat ∨ c = '~'.toNat ∨
    (c = '/'.toNat ∧ ¬encodeSlash)

instance (c : Nat) (es : Bool) : Decidable (copiedVerbatim c es) := by
  unfold copiedVerbatim; infer_instance

/-- `toUpperHexChar` (`sigv4.c`). -/
def toUpperHexChar (v : Nat) : Nat := if v < 10 then 48 + v else 55 + v

/-- The three bytes stored by `writeHexCodeOfChar` (`sigv4.c`): `%XX` with
uppercase hex digits of the byte value. -/
def writeHexCodeOfChar (c : Nat) : List Nat :=
  ['%'.toNat, toUpperHexChar (c / 16), toUpperHexChar (c % 16)]

/-- The five bytes stored by `writeDoubleEncodedEquals` (`sigv4.c`): `%253D`. -/
def writeDoubleEncodedEquals : List Nat := asc "%253D"

/-- The loop of `encodeURI` (`sigv4.c`).  `out` is the byte content of the
destination so far: every store of the source goes to index `bytesConsumed`,
which always equals the number of bytes already stored, so position `i` of
the returned list is exactly the byte the source stores at destination index
`i`.  The `%XX` and `%253D` branches check capacity and `break` before
storing; the verbatim branch stores first and only afterwards does the loop
set `SigV4InsufficientMemory` (without breaking) when `bytesConsumed`
exceeded the capacity. -/
def encodeURILoop (bufferLen : Nat) (encodeSlash doubleEncodeEquals : Bool) :
    List Nat → List Nat → SigV4Status → SigV4Status × List Nat
  | [], out, st => (st, out)
  | c :: rest, out, st =>
    let step : Option (List Nat) :=
      if doubleEncodeEquals ∧ c = '='.toNat then
        if out.length + 5 > bufferLen then none
        else some (out ++ writeDoubleEncodedEquals)
      else if copiedVerbatim c encodeSlash then some (out ++ [c])
      else if out.length + 3 > bufferLen then none
      else some (out ++ writeHexCodeOfChar c)
    match step with
    | none => (SigV4Status.InsufficientMemory, out)
    | some out' =>
      let st' := if out'.length > bufferLen then SigV4Status.InsufficientMemory else st
      encodeURILoop bufferLen encodeSlash doubleEncodeEquals rest out' st'

/-- `encodeURI` (`sigv4.c`): encode `pUri` into a destination buffer of
declared capacity `bufferLen`.  Returns the final status and the stored
bytes (store `i` of the list went to destination index `i`). -/
def encodeURI (pUri : List Nat) (bufferLen : Nat) (encodeSlash doubleEncodeEquals : Bool) :
    SigV4Status × List Nat :=
  encodeURILoop bufferLen encodeSlash doubleEncodeEquals pUri [] SigV4Status.Success

/-- The capacity-free URI encoding: what `encodeURI` stores when the buffer
never runs out. -/
def uriEncodeChar (encodeSlash doubleEncodeEquals : Bool) (c : Nat) : List Nat :=
  if doubleEncodeEquals ∧ c = '='.toNat then writeDoubleEncodedEquals
  else if copiedVerbatim c encodeSlash then [c]
  else writeHexCodeOfChar c

/-- Concatenation of `uriEncodeChar` over a byte string. -/
def uriEncodePure (pUri : List Nat) (encodeSlash doubleEncodeEquals : Bool) : List Nat :=
  pUri.flatMap (uriEncodeChar encodeSlash doubleEncodeEquals)

/-- A query key/value pair: spans of the caller's query string
(`SigV4KeyValuePair_t`); a missing value is the empty span, matching the
source's `NULL/0` representation. -/
abbrev QPair := List Nat × List Nat

/-- `cmpQueryFieldValue` (`sigv4.c`): compare keys with `strncmp` on the
shorter length; on a tie compare values the same way when the key lengths
are equal, else order the shorter key first; finally order the shorter value
first when everything else tied. -/
def cmpQueryFieldValue (p q : QPair) : Int :=
  let lenSmallK := min p.1.length q.1.length
  let c0 := strncmpC p.1 q.1 lenSmallK
  let c1 :=
    if c0 = 0 then
      if p.1.length = q.1.length then
        strncmpC p.2 q.2 (min p.2.length q.2.length)
      else if p.1.length < q.1.length then -1 else 1
    else c0
  if c1 = 0 ∧ p.2.length ≠ q.2.length then
    (if p.2.length < q.2.length then -1 else 1)
  else c1

/-- One stage of `cmpQueryFieldValue`: `strncmp` on the shorter length with a
shorter-first length tie-break.  `cmpQueryFieldValue` is this stage on the
keys, refined by the same stage on the values. -/
def cmpStage (a b : List Nat) : Int :=
  let c := strncmpC a b (min a.length b.length)
  if c = 0 then
    if a.length = b.length then 0 else if a.length < b.length then -1 else 1
  else c

/-- Boolean byte-lexicographic order on byte strings (a proper prefix sorts
first), the order the specification means by "byte lexicographic". -/
def lexLt : List Nat → List Nat → Bool
  | [], [] => false
  | [], _ :: _ => true
  | _ :: _, [] => false
  | a :: as, b :: bs => a < b || (a = b && lexLt as bs)

/-- No byte of the string is NUL (so `strncmp` never stops early). -/
def noNul (l : List Nat) : Prop := ∀ c ∈ l, c ≠ 0

instance (l : List Nat) : Decidable (noNul l) := by unfold noNul; infer_instance

/-- The body of the scan loop of `setQueryStringFieldsAndValues` (`sigv4.c`),
recursing over the absolute index `i`.  `pending` holds the key stored at
`pQueryLoc[currentParameter]` while `fieldHasValue` is set; `acc` holds the
completed pairs (`currentParameter = acc.length`).  The index arithmetic,
including the in-body `i++` at the last byte and the early `break` when the
pair count passes `maxPairs`, mirrors the source. -/
def setQSLoop (q : List Nat) (maxPairs : Nat) :
    Nat → Nat → Nat → Option (List Nat) → List QPair → List QPair
  | 0, _, _, _, acc => acc
  | fuel + 1, i, start, pending, acc =>
    if hi : i < q.length then
      let c := q.get ⟨i, hi⟩
      if c = '='.toNat ∧ pending = none then
        if acc.length > maxPairs then acc
        else setQSLoop q maxPairs fuel (i + 1) (i + 1) (some ((q.drop start).take (i - start))) acc
      else if i = q.length - 1 ∨ (c = '&'.toNat ∧ i ≠ 0) then
        let iEff := if i = q.length - 1 then i + 1 else i
        if iEff - start = 0 then
          if i = q.length - 1 then acc
          else if acc.length > maxPairs then acc
          else setQSLoop q maxPairs fuel (i + 1) start pending acc
        else
          let pair : QPair :=
            match pending with
            | none => ((q.drop start).take (iEff - start), [])
            | some k => (k, (q.drop start).take (iEff - start))
          let acc' := acc ++ [pair]
          if i = q.length - 1 then acc'
          else if acc'.length > maxPairs then acc'
          else setQSLoop q maxPairs fuel (i + 1) (iEff + 1) none acc'
      else
        if acc.length > maxPairs then acc
        else setQSLoop q maxPairs fuel (i + 1) start pending acc
    else acc

/-- `setQueryStringFieldsAndValues` (`sigv4.c`): the key/value spans recorded
in `pQueryLoc`, in parse order; the reported parameter count is the length
of the returned list.  The loop advances `i` by one per iteration, so
`q.length` steps of fuel make the fuelled recursion exactly the source's
`for` loop. -/
def setQueryStringFieldsAndValues (q : List Nat) (maxPairs : Nat) : List QPair :=
  setQSLoop q maxPairs q.length 0 0 none []

/-- `writeValueInCanonicalizedQueryString` (`sigv4.c`): write `=` followed by
the double-encoded value.  Returns the status, the bytes stored, and the
updated remaining capacity. -/
def writeValueInCanonicalizedQueryString (value : List Nat) (remainingLen : Nat) :
    SigV4Status × List Nat × Nat :=
  if remainingLen < 1 then (SigV4Status.InsufficientMemory, [], remainingLen)
  else
    let res := encodeURI value (remainingLen - 1) true true
    if res.1 = SigV4Status.Success then
      (res.1, '='.toNat :: res.2, (remainingLen - 1) - res.2.length)
    else (res.1, '='.toNat :: res.2, remainingLen - 1)

/-- The body of one iteration of `writeCanonicalQueryParameters` (`sigv4.c`)
before the separator logic: encode the field; on success, emit `=` and the
value when the value is nonempty.  Returns the status, the output content so
far, and the remaining capacity. -/
def writeCQPStep (p : QPair) (remainingLen : Nat) (out : List Nat) :
    SigV4Status × List Nat × Nat :=
  let r1 := encodeURI p.1 remainingLen true false
  if r1.1 = SigV4Status.Success then
    if p.2.length > 0 then
      let rv := writeValueInCanonicalizedQueryString p.2 (remainingLen - r1.2.length)
      (rv.1, out ++ r1.2 ++ rv.2.1, rv.2.2)
    else (SigV4Status.Success, out ++ r1.2, remainingLen - r1.2.length)
  else (r1.1, out ++ r1.2, remainingLen)

/-- The loop of `writeCanonicalQueryParameters` (`sigv4.c`) over the (sorted)
pair array.  `out` is the byte content written so far; the `&` separator and
the remaining-capacity bookkeeping mirror the source, including the
insufficient-memory check that fires only when another pair follows. -/
def writeCQPLoop : List QPair → Nat → List Nat → SigV4Status × List Nat × Nat
  | [], remainingLen, out => (SigV4Status.Success, out, remainingLen)
  | p :: rest, remainingLen, out =>
    let mid := writeCQPStep p remainingLen out
    if mid.2.2 < 1 ∧ rest ≠ [] then (SigV4Status.InsufficientMemory, mid.2.1, mid.2.2)
    else if rest ≠ [] ∧ mid.1 = SigV4Status.Success then
      writeCQPLoop rest (mid.2.2 - 1) (mid.2.1 ++ ['&'.toNat])
    else if mid.1 ≠ SigV4Status.Success then mid
    else (SigV4Status.Success, mid.2.1, mid.2.2)

/-- `writeCanonicalQueryParameters` (`sigv4.c`) on an already-sorted pair
list, starting from an empty output with `remainingLen` bytes of capacity. -/
def writeCanonicalQueryParameters (pairs : List QPair) (remainingLen : Nat) :
    SigV4Status × List Nat × Nat :=
  writeCQPLoop pairs remainingLen []

/-- `generateCanonicalQuery` (`sigv4.c`): parse the query, fail if the pair
count exceeds the configured maximum, emit the pairs in the order produced
by the external `qsort` call (passed in as `sorted`), and append the
terminating linefeed on success. -/
def generateCanonicalQuery (q : List Nat) (sorted : List QPair)
    (remainingLen maxPairs : Nat) : SigV4Status × List Nat :=
  if (setQueryStringFieldsAndValues q maxPairs).length > maxPairs then
    (SigV4Status.MaxQueryPairCountExceeded, [])
  else
    let res := writeCanonicalQueryParameters sorted remainingLen
    if res.1 = SigV4Status.Success then (res.1, res.2.1 ++ ['\n'.toNat]) else (res.1, res.2.1)

/-- The emission the specification sentence for the canonical query
prescribes for one pair (quoted from the spec, to be compared with the
code): the URI-encoded field, then `=`, then the URI-encoded value, for
every pair including pairs with an empty value. -/
def specQueryPairEmission (p : QPair) : List Nat :=
  uriEncodePure p.1 true false ++ ['='.toNat] ++ uriEncodePure p.2 true true

/-- The emission the code actually performs for one pair: the `=` and the
value are only written when the value is nonempty. -/
def codeQueryPairEmission (p : QPair) : List Nat :=
  uriEncodePure p.1 true false ++
    (if p.2.length > 0 then '='.toNat :: uriEncodePure p.2 true true else [])

/-- `&`-joined concatenation of emitted pairs. -/
def joinAmp : List (List Nat) → List Nat
  | [] => []
  | [a] => a
  | a :: rest => a ++ '&'.toNat :: joinAmp rest

/-! ## HMAC engine and signing key (`sigv4.c`) -/

/-- The caller-supplied hash provider (`SigV4CryptoInterface_t`): an abstract
digest function standing for init/update/final runs, with the declared block
and digest lengths.  `hashFinal` writes `hashDigestLen` bytes of `H` applied
to all bytes fed since `hashInit`. -/
structure HashSpec where
  H : List Nat → List Nat
  blockLen : Nat
  digestLen : Nat

/-- The hash provider's contract as the HMAC engine assumes it: every digest
has the declared length and fits in a block. -/
def GoodHash (hs : HashSpec) : Prop :=
  (∀ l, (hs.H l).length = hs.digestLen) ∧ hs.digestLen ≤ hs.blockLen

/-- `HmacContext_t`: `key` is the working key buffer (only its first
`min keyLen blockLen` bytes are ever read before being overwritten, so the
list holds the bytes the source's buffer holds at the positions it reads);
`keyLen` is the accumulated key length; `fed` is the byte string fed to the
hash context since the last `hashInit`. -/
structure HmacContext where
  key : List Nat := []
  keyLen : Nat := 0
  fed : List Nat := []

/-- `hmacKey` (`sigv4.c`): append key material.  While the accumulated key
still fits in a block it is copied at offset `keyLen` of the working buffer;
the first time it would overflow, the hash is initialized and fed the
buffered bytes, and this and later fragments are fed directly. -/
def hmacKey (hs : HashSpec) (ctx : HmacContext) (k : List Nat) : HmacContext :=
  if ctx.keyLen + k.length ≤ hs.blockLen then
    { ctx with key := ctx.key.take ctx.keyLen ++ k, keyLen := ctx.keyLen + k.length }
  else
    let fed0 := if ctx.keyLen ≤ hs.blockLen then ctx.key.take ctx.keyLen else ctx.fed
    { ctx with fed := fed0 ++ k, keyLen := ctx.keyLen + k.length }

/-- `hmacData` (`sigv4.c`): finish the key (hashing it down to a digest when
it overflowed a block), zero-pad it to the block length, XOR with the `ipad`
byte `0x36`, and feed the padded key followed by the data to a freshly
initialized hash. -/
def hmacData (hs : HashSpec) (ctx : HmacContext) (data : List Nat) : HmacContext :=
  let (key1, keyLen1) :=
    if hs.blockLen < ctx.keyLen then ((hs.H ctx.fed).take hs.digestLen, hs.digestLen)
    else (ctx.key, ctx.keyLen)
  let padded := key1.take keyLen1 ++ List.replicate (hs.blockLen - keyLen1) 0
  let ipadKey := padded.map (fun b => b ^^^ 0x36)
  { key := ipadKey, keyLen := keyLen1, fed := ipadKey ++ data }

/-- `hmacFinal` (`sigv4.c`): take the inner digest, turn the `ipad`-keyed
block into the `opad`-keyed block by XORing with `0x36 ^^^ 0x5c = 0x6a`,
hash the opad block followed by the inner digest, and reset `keyLen`.
Returns the `hashDigestLen` bytes written to the caller's output. -/
def hmacFinal (hs : HashSpec) (ctx : HmacContext) : List Nat × HmacContext :=
  let inner := (hs.H ctx.fed).take hs.digestLen
  let opadKey := (ctx.key.take hs.blockLen).map (fun b => b ^^^ 0x6a)
  let mac := (hs.H (opadKey ++ inner)).take hs.digestLen
  (mac, { key := opadKey, keyLen := 0, fed := opadKey ++ inner })

/-- `completeHmac` (`sigv4.c`): one whole HMAC over the given key and data,
using the shared context.  Fails (returns `none`, the source's `-1`) exactly
when the output buffer is smaller than a digest; hash-provider calls always
succeed in this model. -/
def completeHmac (hs : HashSpec) (ctx : HmacContext) (key data : List Nat)
    (outputLen : Nat) : Option (List Nat × HmacContext) :=
  if outputLen < hs.digestLen then none
  else some (hmacFinal hs (hmacData hs (hmacKey hs ctx key) data))

/-- Standard HMAC over the abstract hash, written from the specification's
words: `K0` is the key zero-padded to the block length, or the zero-padded
digest of the key when the key is longer than a block; the result is
`H((K0 ⊕ opad) ‖ H((K0 ⊕ ipad) ‖ M))` with `ipad = 0x36…`, `opad = 0x5c…`. -/
def hmacSpec (hs : HashSpec) (K M : List Nat) : List Nat :=
  let K0 :=
    if K.length ≤ hs.blockLen then K ++ List.replicate (hs.blockLen - K.length) 0
    else hs.H K ++ List.replicate (hs.blockLen - hs.digestLen) 0
  hs.H (K0.map (fun b => b ^^^ 0x5c) ++ hs.H (K0.map (fun b => b ^^^ 0x36) ++ M))

/-- `SIGV4_HMAC_SIGNING_KEY_PREFIX`.  Modelled from the spec: the constant's
`#define` lives in a configuration header that is not part of the sources;
the spec (and the comment above the call site in
`SigV4_GenerateHTTPAuthorization`) give the value `"AWS4"`. -/
def SIGV4_HMAC_SIGNING_KEY_PREFIX : List Nat := asc "AWS4"

/-- `CREDENTIAL_SCOPE_TERMINATOR`.  Modelled from the spec: the constant's
`#define` is in a header not among the sources; the spec's credential scope
and signing-key formula give the value `"aws4_request"`. -/
def CREDENTIAL_SCOPE_TERMINATOR : List Nat := asc "aws4_request"

/-- `ISO_DATE_SCOPE_LEN`.  Modelled from the spec: the scope uses the first
8 bytes (`YYYYMMDD`) of the 16-byte ISO 8601 date. -/
def ISO_DATE_SCOPE_LEN : Nat := 8

/-- `generateSigningKey` (`sigv4.c`): the chained HMAC over the secret,
date, region, service and terminator, alternating between two digest slots
of the processing buffer (modelled by the digest values themselves).
`bytesRemaining` is `*pBytesRemaining`, which at the call site equals the
signing-key buffer length `pSigningKey->dataLen`.  The buffer-size check
only affects the status; the chain continues regardless, as in the source. -/
def generateSigningKey (hs : HashSpec) (secret dateIso8601 region service : List Nat)
    (bytesRemaining : Nat) : SigV4Status × Option (List Nat) :=
  let ctx1 := hmacKey hs {} SIGV4_HMAC_SIGNING_KEY_PREFIX
  let memStatus :=
    if bytesRemaining < 2 * hs.digestLen then SigV4Status.InsufficientMemory
    else SigV4Status.Success
  match completeHmac hs ctx1 secret (dateIso8601.take ISO_DATE_SCOPE_LEN) bytesRemaining with
  | none => (SigV4Status.HashError, none)
  | some (k0, ctx2) =>
    match completeHmac hs ctx2 k0 region (bytesRemaining - hs.digestLen) with
    | none => (SigV4Status.HashError, none)
    | some (k1, ctx3) =>
      match completeHmac hs ctx3 k1 service hs.digestLen with
      | none => (SigV4Status.HashError, none)
      | some (k2, ctx4) =>
        match completeHmac hs ctx4 k2 CREDENTIAL_SCOPE_TERMINATOR hs.digestLen with
        | none => (SigV4Status.HashError, none)
        | some (kSign, _) => (memStatus, some kSign)

/-- A sequence of `hmacKey` calls supplying the key in fragments. -/
def feedKey (hs : HashSpec) (ctx : HmacContext) (ks : List (List Nat)) : HmacContext :=
  ks.foldl (hmacKey hs) ctx

/-- The invariant `hmacKey` maintains while the key bytes `K` accumulate:
`keyLen` counts the accumulated bytes; while they fit in a block the working
buffer holds them; once they overflowed, the hash context has been fed
exactly the accumulated bytes. -/
def KeyInv (hs : HashSpec) (ctx : HmacContext) (K : List Nat) : Prop :=
  ctx.keyLen = K.length ∧
  (K.length ≤ hs.blockLen → ctx.key.take K.length = K) ∧
  (hs.blockLen < K.length → ctx.fed = K)

/-- A tiny concrete hash provider (block length 4, digest length 2) used to
instantiate the HMAC theorems on closed inputs. -/
def witnessHash : HashSpec :=
  { H := fun l => [(l.sum + 1) % 251, (l.length + 3) % 251], blockLen := 4, digestLen := 2 }

/-- The signing key of the specification: the chained standard HMAC
`HMAC(HMAC(HMAC(HMAC("AWS4" ‖ secret, YYYYMMDD), region), service),
"aws4_request")`, with `YYYYMMDD` the first 8 bytes of the ISO 8601 date. -/
def specSigningKey (hs : HashSpec) (secret dateIso8601 region service : List Nat) :
    List Nat :=
  hmacSpec hs
    (hmacSpec hs
      (hmacSpec hs
        (hmacSpec hs (asc "AWS4" ++ secret) (dateIso8601.take 8))
        region)
      service)
    (asc "aws4_request")

/-! ## Parameter validation (`sigv4.c`) -/

/-- `SigV4CryptoInterface_t` as validation sees it: NULL-ness of the hash
context pointer, and the declared lengths.  The three function pointers are
never NULL-checked by `verifySigV4Parameters`. -/
structure CryptoInterfaceView where
  pHashContext : Option Unit
  hashBlockLen : Nat
  hashDigestLen : Nat

/-- `SigV4Credentials_t` as validation sees it: NULL-ness of each pointer
member. -/
structure CredentialsView where
  pAccessKeyId : Option (List Nat)
  pSecretAccessKey : Option (List Nat)
  pSecurityToken : Option (List Nat)
  pExpiration : Option (List Nat)

/-- `SigV4HttpParameters_t` as validation sees it. -/
structure HttpParametersView where
  pHttpMethod : Option (List Nat)
  pHeaders : Option (List Nat)

/-- `SigV4Parameters_t` as validation sees it. -/
structure ParametersView where
  pCredentials : Option CredentialsView
  pDateIso8601 : Option (List Nat)
  pRegion : Option (List Nat)
  pService : Option (List Nat)
  pCryptoInterface : Option CryptoInterfaceView
  pHttpParameters : Option HttpParametersView

/-- `verifySigV4Parameters` (`sigv4.c`): the NULL/limit checks, in source
order.  `maxBlockLen` and `maxDigestLen` stand for the configurable
`SIGV4_HASH_MAX_BLOCK_LENGTH` / `SIGV4_HASH_MAX_DIGEST_LENGTH`. -/
def verifySigV4Parameters (p : Option ParametersView) (maxBlockLen maxDigestLen : Nat) :
    SigV4Status :=
  match p with
  | none => SigV4Status.InvalidParameter
  | some params =>
    match params.pCredentials with
    | none => SigV4Status.InvalidParameter
    | some cred =>
      if cred.pAccessKeyId = none then SigV4Status.InvalidParameter
      else if cred.pSecretAccessKey = none then SigV4Status.InvalidParameter
      else if cred.pSecurityToken = none then SigV4Status.InvalidParameter
      else if cred.pExpiration = none then SigV4Status.InvalidParameter
      else if params.pDateIso8601 = none then SigV4Status.InvalidParameter
      else if params.pRegion = none then SigV4Status.InvalidParameter
      else if params.pService = none then SigV4Status.InvalidParameter
      else
        match params.pCryptoInterface with
        | none => SigV4Status.InvalidParameter
        | some ci =>
          if ci.pHashContext = none then SigV4Status.InvalidParameter
          else if ci.hashBlockLen > maxBlockLen then SigV4Status.InvalidParameter
          else if ci.hashDigestLen > maxDigestLen then SigV4Status.InvalidParameter
          else
            match params.pHttpParameters with
            | none => SigV4Status.InvalidParameter
            | some hp =>
              if hp.pHttpMethod = none then SigV4Status.InvalidParameter
              else if hp.pHeaders = none then SigV4Status.InvalidParameter
              else SigV4Status.Success

/-! ## Authorization value prefix (`sigv4.c`) -/

/-- `sizeNeededForCredentialScope` (`sigv4.c`). -/
def sizeNeededForCredentialScope (region service : List Nat) : Nat :=
  ISO_DATE_SCOPE_LEN + 1 + region.length + 1 + service.length + 1 +
    CREDENTIAL_SCOPE_TERMINATOR.length

/-- The bytes `generateCredentialScope` (`sigv4.c`) writes when its buffer
suffices: `YYYYMMDD/region/service/aws4_request`. -/
def credentialScopeBytes (dateIso8601 region service : List Nat) : List Nat :=
  dateIso8601.take ISO_DATE_SCOPE_LEN ++ ['/'.toNat] ++ region ++ ['/'.toNat] ++
    service ++ ['/'.toNat] ++ CREDENTIAL_SCOPE_TERMINATOR

/-- `generateCredentialScope` (`sigv4.c`): on insufficient capacity nothing
is written and the advertised length is left unchanged; otherwise the scope
bytes are written and their length reported. -/
def generateCredentialScope (dateIso8601 region service : List Nat) (capacity : Nat) :
    SigV4Status × List Nat × Nat :=
  let sizeNeeded := sizeNeededForCredentialScope region service
  if capacity < sizeNeeded then (SigV4Status.InsufficientMemory, [], capacity)
  else (SigV4Status.Success, credentialScopeBytes dateIso8601 region service, sizeNeeded)

/-- Indexed stores of a byte list written contiguously from `start`. -/
def storesFrom (start : Nat) (bytes : List Nat) : List (Nat × Nat) :=
  bytes.enum.map fun ib => (start + ib.1, ib.2)

/-- Result of `generateAuthorizationValuePrefix`: the returned status, every
`(index, byte)` store performed on `pAuthBuf`, and the final value of
`*pAuthPrefixLen`. -/
structure AuthPrefixResult where
  status : SigV4Status
  stores : List (Nat × Nat)
  prefixLen : Nat
  deriving DecidableEq, Repr

/-- `generateAuthorizationValuePrefix` (`sigv4.c`), named with a trailing
marker.  `capacity` is `*pAuthPrefixLen` on entry, which the caller sets to
`*authBufLen`, the declared capacity of `pAuthBuf`.  The size check only
sets the status: the writing of
`<algorithm> Credential=<akid>/<scope>, SignedHeaders=<sh>, Signature=`
is performed unconditionally, exactly as in the source, where the
`Credential=`/`SignedHeaders=`/`Signature=`/`", "` literals are modelled
from the spec's byte-exact Authorization layout (their `#define`s are in a
header not among the sources).  On the insufficient-memory path
`generateCredentialScope` is called with the full `capacity` as its buffer
length and `numOfBytesWritten` still advances by the scope length it
reports, as in the source. -/
def generateAuthorizationValuePrefixC (algorithm akid dateIso8601 region service
    signedHeaders : List Nat) (digestLen capacity : Nat) : AuthPrefixResult :=
  let authPrefixLen := algorithm.length + 1 +
    11 + akid.length + 1 + sizeNeededForCredentialScope region service +
    2 + 14 + signedHeaders.length + 2 + 10
  let st :=
    if capacity < authPrefixLen + 2 * digestLen then SigV4Status.InsufficientMemory
    else SigV4Status.Success
  let part1 := algorithm ++ [' '.toNat] ++ asc "Credential=" ++ akid ++ ['/'.toNat]
  let (_, scopeBytes, scopeLen) := generateCredentialScope dateIso8601 region service capacity
  let part2 := asc ", " ++ asc "SignedHeaders=" ++ signedHeaders ++ asc ", " ++
    asc "Signature="
  { status := st
    stores := storesFrom 0 part1 ++ storesFrom part1.length scopeBytes ++
      storesFrom (part1.length + scopeLen) part2
    prefixLen := if st = SigV4Status.Success then authPrefixLen else capacity }

/-! ## Helper lemmas -/

theorem intToAscii_length (w : Nat) : ∀ v : Int, (intToAscii v w).length = w := by
  induction w with
  | zero => intro v; rfl
  | succ w ih => intro v; simp [intToAscii, ih]

theorem take_of_len {α : Type} (l : List α) (n : Nat) (h : l.length = n) : l.take n = l := by
  rw [← h]
  exact List.take_length _

theorem xor_ipad_opad (l : List Nat) :
    (l.map (fun b => b ^^^ 0x36)).map (fun b => b ^^^ 0x6a) = l.map (fun b => b ^^^ 0x5c) := by
  rw [List.map_map]
  congr 1
  funext b
  show (b ^^^ 0x36) ^^^ 0x6a = b ^^^ 0x5c
  rw [Nat.xor_assoc]
  rfl

theorem take_digest (hs : HashSpec) (hlen : ∀ l, (hs.H l).length = hs.digestLen)
    (x : List Nat) : (hs.H x).take hs.digestLen = hs.H x :=
  take_of_len _ _ (hlen x)

/-- `hmacKey` preserves the key-accumulation invariant. -/
theorem hmacKey_inv (hs : HashSpec) (ctx : HmacContext) (K k : List Nat)
    (h : KeyInv hs ctx K) : KeyInv hs (hmacKey hs ctx k) (K ++ k) := by
  obtain ⟨h1, h2, h3⟩ := h
  unfold hmacKey KeyInv
  by_cases hfit : ctx.keyLen + k.length ≤ hs.blockLen
  · rw [if_pos hfit]
    have hKB : K.length ≤ hs.blockLen := by omega
    have hkey := h2 hKB
    refine ⟨by simp [h1], ?_, ?_⟩
    · intro _
      rw [h1, hkey]
      simp
    · intro hB
      exfalso
      rw [List.length_append] at hB
      omega
  · rw [if_neg hfit]
    refine ⟨by simp [h1], ?_, ?_⟩
    · intro hBB
      exfalso
      rw [List.length_append] at hBB
      omega
    · intro _
      by_cases hle : ctx.keyLen ≤ hs.blockLen
      · rw [if_pos hle]
        simp only
        rw [h1, h2 (by omega)]
      · rw [if_neg hle]
        simp only
        rw [h3 (by omega)]

/-- A context with `keyLen = 0` holds the empty key: `hmacKey` and
`hmacFinal` only ever read the first `keyLen` buffered bytes. -/
theorem keyInv_zero (hs : HashSpec) (ctx : HmacContext) (h : ctx.keyLen = 0) :
    KeyInv hs ctx [] := by
  refine ⟨by simp [h], by simp, by simp⟩

theorem feedKey_inv (hs : HashSpec) :
    ∀ (ks : List (List Nat)) (ctx : HmacContext) (K : List Nat),
      KeyInv hs ctx K → KeyInv hs (feedKey hs ctx ks) (K ++ ks.flatten) := by
  intro ks
  induction ks with
  | nil => intro ctx K h; simpa [feedKey] using h
  | cons k ks ih =>
    intro ctx K h
    have step := hmacKey_inv hs ctx K k h
    have := ih (hmacKey hs ctx k) (K ++ k) step
    simpa [feedKey, List.append_assoc] using this

/-- The data and finalization phases compute the standard HMAC of the
accumulated key: zero-padding or hash-down to `K0`, inner hash over the
`ipad`-masked key, outer hash over the `opad`-masked key. -/
theorem hmac_data_final (hs : HashSpec) (hgood : GoodHash hs) (ctx : HmacContext)
    (K M : List Nat) (hinv : KeyInv hs ctx K) :
    (hmacFinal hs (hmacData hs ctx M)).1 = hmacSpec hs K M := by
  obtain ⟨hlen, hDB⟩ := hgood
  obtain ⟨i1, i2, i3⟩ := hinv
  unfold hmacData hmacFinal hmacSpec
  by_cases hfit : K.length ≤ hs.blockLen
  · rw [if_neg (by omega), if_pos hfit]
    simp only
    rw [i1, i2 hfit]
    have hpadlen : (K ++ List.replicate (hs.blockLen - K.length) 0).length
        = hs.blockLen := by
      rw [List.length_append, List.length_replicate]
      omega
    have hmaplen : ((K ++ List.replicate (hs.blockLen - K.length) 0).map
        (fun b => b ^^^ 0x36)).length = hs.blockLen := by
      rw [List.length_map]
      exact hpadlen
    rw [take_of_len _ _ hmaplen, xor_ipad_opad, take_digest hs hlen, take_digest hs hlen]
  · rw [if_pos (by omega), if_neg hfit]
    simp only
    rw [i3 (by omega)]
    have htt : ((hs.H K).take hs.digestLen).take hs.digestLen = hs.H K := by
      rw [List.take_take, min_self, take_digest hs hlen]
    rw [htt]
    have hpadlen : (hs.H K ++ List.replicate (hs.blockLen - hs.digestLen) 0).length
        = hs.blockLen := by
      rw [List.length_append, List.length_replicate, hlen]
      omega
    have hmaplen : ((hs.H K ++ List.replicate (hs.blockLen - hs.digestLen) 0).map
        (fun b => b ^^^ 0x36)).length = hs.blockLen := by
      rw [List.length_map]
      exact hpadlen
    rw [take_of_len _ _ hmaplen, xor_ipad_opad, take_digest hs hlen, take_digest hs hlen]

theorem hmacFinal_keyLen (hs : HashSpec) (ctx : HmacContext) :
    (hmacFinal hs ctx).2.keyLen = 0 := rfl

/-- `completeHmac` on a context whose accumulated key is `K` computes the
standard HMAC of `K ++ key`, leaving a reset context. -/
theorem completeHmac_eq (hs : HashSpec) (hgood : GoodHash hs) (ctx : HmacContext)
    (K key data : List Nat) (outputLen : Nat) (hinv : KeyInv hs ctx K)
    (hout : hs.digestLen ≤ outputLen) :
    completeHmac hs ctx key data outputLen
      = some (hmacSpec hs (K ++ key) data,
          (hmacFinal hs (hmacData hs (hmacKey hs ctx key) data)).2) := by
  unfold completeHmac
  rw [if_neg (by omega)]
  exact congrArg some (Prod.ext_iff.mpr
    ⟨hmac_data_final hs hgood _ _ data (hmacKey_inv hs ctx K key hinv), rfl⟩)

theorem joinAmp_cons (a : List Nat) (r : List (List Nat)) (h : r ≠ []) :
    joinAmp (a :: r) = a ++ '&'.toNat :: joinAmp r := by
  cases r with
  | nil => exact absurd rfl h
  | cons b s => rfl

/-- When the `encodeURI` loop ends in `SigV4Success`, no capacity check ever
fired and the stored bytes are exactly the capacity-free encoding. -/
theorem encodeURILoop_success (cap : Nat) (es dee : Bool) :
    ∀ (uri out : List Nat) (st0 : SigV4Status),
      (encodeURILoop cap es dee uri out st0).1 = SigV4Status.Success →
      (encodeURILoop cap es dee uri out st0).2 = out ++ uriEncodePure uri es dee ∧
        st0 = SigV4Status.Success := by
  intro uri
  induction uri with
  | nil =>
    intro out st0 h
    simp only [encodeURILoop] at h
    exact ⟨by simp [encodeURILoop, uriEncodePure], h⟩
  | cons c rest ih =>
    intro out st0 h
    simp only [encodeURILoop] at h ⊢
    by_cases h1 : dee = true ∧ c = '='.toNat
    · by_cases h2 : out.length + 5 > cap
      · simp only [if_pos h1, if_pos h2] at h
        exact absurd h (by decide)
      · simp only [if_pos h1, if_neg h2] at h ⊢
        obtain ⟨ho, hst⟩ := ih _ _ h
        have hst0 : st0 = SigV4Status.Success := by
          by_cases h3 : (out ++ writeDoubleEncodedEquals).length > cap
          · rw [if_pos h3] at hst
            exact absurd hst (by decide)
          · rwa [if_neg h3] at hst
        refine ⟨?_, hst0⟩
        rw [ho]
        simp [uriEncodePure, uriEncodeChar, h1.1, h1.2]
    · by_cases h4 : copiedVerbatim c es
      · simp only [if_neg h1, if_pos h4] at h ⊢
        obtain ⟨ho, hst⟩ := ih _ _ h
        have hst0 : st0 = SigV4Status.Success := by
          by_cases h3 : (out ++ [c]).length > cap
          · rw [if_pos h3] at hst
            exact absurd hst (by decide)
          · rwa [if_neg h3] at hst
        refine ⟨?_, hst0⟩
        rw [ho]
        have hc : uriEncodeChar es dee c = [c] := by
          unfold uriEncodeChar
          rw [if_neg h1, if_pos h4]
        simp [uriEncodePure, hc]
      · by_cases h2 : out.length + 3 > cap
        · simp only [if_neg h1, if_neg h4, if_pos h2] at h
          exact absurd h (by decide)
        · simp only [if_neg h1, if_neg h4, if_neg h2] at h ⊢
          obtain ⟨ho, hst⟩ := ih _ _ h
          have hst0 : st0 = SigV4Status.Success := by
            by_cases h3 : (out ++ writeHexCodeOfChar c).length > cap
            · rw [if_pos h3] at hst
              exact absurd hst (by decide)
            · rwa [if_neg h3] at hst
          refine ⟨?_, hst0⟩
          rw [ho]
          have hc : uriEncodeChar es dee c = writeHexCodeOfChar c := by
            unfold uriEncodeChar
            rw [if_neg h1, if_neg h4]
          simp [uriEncodePure, hc]

theorem encodeURI_success (uri : List Nat) (cap : Nat) (es dee : Bool)
    (h : (encodeURI uri cap es dee).1 = SigV4Status.Success) :
    (encodeURI uri cap es dee).2 = uriEncodePure uri es dee := by
  have := (encodeURILoop_success cap es dee uri [] SigV4Status.Success h).1
  simpa [encodeURI] using this

theorem writeValue_success (value : List Nat) (rem : Nat)
    (h : (writeValueInCanonicalizedQueryString value rem).1 = SigV4Status.Success) :
    (writeValueInCanonicalizedQueryString value rem).2.1
      = '='.toNat :: uriEncodePure value true true := by
  unfold writeValueInCanonicalizedQueryString at h ⊢
  by_cases h1 : rem < 1
  · rw [if_pos h1] at h
    exact absurd h (by simp)
  · rw [if_neg h1] at h ⊢
    simp only at h ⊢
    by_cases h2 : (encodeURI value (rem - 1) true true).1 = SigV4Status.Success
    · rw [if_pos h2]
      simp only
      rw [encodeURI_success value (rem - 1) true true h2]
    · rw [if_neg h2] at h
      exact absurd h h2

/-- A successful loop-body iteration of `writeCanonicalQueryParameters`
emits exactly the pair's code emission. -/
theorem writeCQPStep_success (p : QPair) (rem : Nat) (out : List Nat)
    (h : (writeCQPStep p rem out).1 = SigV4Status.Success) :
    (writeCQPStep p rem out).2.1 = out ++ codeQueryPairEmission p := by
  unfold writeCQPStep at h ⊢
  simp only at h ⊢
  by_cases h1 : (encodeURI p.1 rem true false).1 = SigV4Status.Success
  · rw [if_pos h1] at h ⊢
    by_cases hv : p.2.length > 0
    · rw [if_pos hv] at h ⊢
      simp only at h ⊢
      rw [writeValue_success p.2 (rem - (encodeURI p.1 rem true false).2.length) h,
        encodeURI_success p.1 rem true false h1,
        codeQueryPairEmission, if_pos hv, List.append_assoc]
    · rw [if_neg hv] at h ⊢
      simp only
      rw [encodeURI_success p.1 rem true false h1, codeQueryPairEmission, if_neg hv,
        List.append_nil]
  · rw [if_neg h1] at h
    exact absurd h h1

/-- A successful run of the `writeCanonicalQueryParameters` loop writes the
`&`-joined code emissions of its pairs. -/
theorem writeCQPLoop_success :
    ∀ (ps : List QPair) (rem : Nat) (out : List Nat),
      (writeCQPLoop ps rem out).1 = SigV4Status.Success →
      (writeCQPLoop ps rem out).2.1 = out ++ joinAmp (ps.map codeQueryPairEmission) := by
  intro ps
  induction ps with
  | nil =>
    intro rem out h
    simp [writeCQPLoop, joinAmp]
  | cons p rest ih =>
    intro rem out h
    simp only [writeCQPLoop] at h ⊢
    by_cases hm : (writeCQPStep p rem out).2.2 < 1 ∧ rest ≠ []
    · rw [if_pos hm] at h
      exact absurd h (by simp)
    · rw [if_neg hm] at h ⊢
      by_cases hn : rest ≠ [] ∧ (writeCQPStep p rem out).1 = SigV4Status.Success
      · rw [if_pos hn] at h ⊢
        rw [ih _ _ h, writeCQPStep_success p rem out hn.2, List.map_cons,
          joinAmp_cons _ _ (by simpa using hn.1)]
        simp [List.append_assoc]
      · rw [if_neg hn] at h ⊢
        by_cases hs : (writeCQPStep p rem out).1 = SigV4Status.Success
        · have hrest : rest = [] := by
            by_contra hne
            exact hn ⟨hne, hs⟩
          subst hrest
          rw [if_neg (by simpa using hs)] at h ⊢
          simp only [List.map_cons, List.map_nil, joinAmp]
          exact writeCQPStep_success p rem out hs
        · rw [if_pos hs] at h
          exact absurd h hs

theorem cmpStage_nil_nil : cmpStage [] [] = 0 := by decide

theorem cmpStage_nil_cons (b : Nat) (bs : List Nat) : cmpStage [] (b :: bs) = -1 := by
  simp [cmpStage, strncmpC]

theorem cmpStage_cons_nil (a : Nat) (as : List Nat) : cmpStage (a :: as) [] = 1 := by
  simp [cmpStage, strncmpC]

/-- On NUL-free heads, one comparison stage steps structurally. -/
theorem cmpStage_cons (a b : Nat) (as bs : List Nat) (ha : a ≠ 0) :
    cmpStage (a :: as) (b :: bs) =
      if a < b then -1 else if b < a then 1 else cmpStage as bs := by
  unfold cmpStage
  simp only [List.length_cons, Nat.succ_min_succ, strncmpC]
  split_ifs <;> first | rfl | omega | contradiction

theorem noNul_tail {x : Nat} {xs : List Nat} (h : noNul (x :: xs)) : noNul xs :=
  fun c hc => h c (List.mem_cons_of_mem x hc)

theorem noNul_head {x : Nat} {xs : List Nat} (h : noNul (x :: xs)) : x ≠ 0 :=
  h x (List.mem_cons_self x xs)

/-- On NUL-free byte strings, one `strncmp`-with-length-tie-break stage is
sign-equivalent to byte-lexicographic order. -/
theorem cmpStage_trichotomy :
    ∀ (a b : List Nat), noNul a → noNul b →
      ((cmpStage a b < 0 ↔ lexLt a b = true) ∧ (cmpStage a b = 0 ↔ a = b) ∧
        (0 < cmpStage a b ↔ lexLt b a = true)) := by
  intro a
  induction a with
  | nil =>
    intro b _ _
    cases b with
    | nil => refine ⟨?_, ?_, ?_⟩ <;> simp [cmpStage_nil_nil, lexLt]
    | cons c cs =>
      refine ⟨?_, ?_, ?_⟩ <;> simp [cmpStage_nil_cons, lexLt]
  | cons x xs ih =>
    intro b hna hnb
    cases b with
    | nil =>
      refine ⟨?_, ?_, ?_⟩ <;> simp [cmpStage_cons_nil, lexLt]
    | cons y ys =>
      have hx := noNul_head hna
      have hy := noNul_head hnb
      rw [cmpStage_cons x y xs ys hx]
      by_cases hxy : x < y
      · rw [if_pos hxy]
        refine ⟨?_, ?_, ?_⟩ <;> simp [lexLt, hxy] <;> omega
      · by_cases hyx : y < x
        · rw [if_neg hxy, if_pos hyx]
          refine ⟨?_, ?_, ?_⟩ <;> simp [lexLt, hxy, hyx] <;> omega
        · have hxyeq : x = y := by omega
          subst hxyeq
          rw [if_neg hxy, if_neg hxy]
          obtain ⟨i1, i2, i3⟩ := ih ys (noNul_tail hna) (noNul_tail hnb)
          refine ⟨?_, ?_, ?_⟩
          · rw [i1]
            simp [lexLt]
          · rw [i2]
            simp
          · rw [i3]
            simp [lexLt]

/-- `cmpQueryFieldValue` is the key stage refined by the value stage. -/
theorem cmp_eq_stage (p q : QPair) :
    cmpQueryFieldValue p q =
      if cmpStage p.1 q.1 = 0 then cmpStage p.2 q.2 else cmpStage p.1 q.1 := by
  simp only [cmpQueryFieldValue, cmpStage]
  split_ifs <;> first | rfl | omega | contradiction | simp_all

theorem lexLt_irrefl (a : List Nat) (h : noNul a) : lexLt a a = false := by
  by_contra hc
  have := (cmpStage_trichotomy a a h h).1
  rw [(cmpStage_trichotomy a a h h).2.1.mpr rfl] at this
  simp at this
  rw [this] at hc
  simp at hc

/-- On a Feb-29 date whose other fields pass their range checks,
`validateDateTime` reduces to `checkLeap`. -/
theorem validate_feb29 (y h mi s : Int) (hy : 1900 ≤ y) (hh : h ≤ 23)
    (hmi : mi ≤ 59) (hs : s ≤ 60) :
    validateDateTime ⟨y, 2, 29, h, mi, s⟩ = checkLeap ⟨y, 2, 29, h, mi, s⟩ := by
  have h1 : ¬(y < 1900) := by omega
  have h2 : ¬(60 < s) := by omega
  have h3 : ¬(59 < mi) := by omega
  have h4 : ¬(23 < h) := by omega
  simp [validateDateTime, daysPerMonth, h1, h2, h3, h4]

/-- `checkLeap` accepts Feb 29 exactly on Gregorian leap years (for the
non-negative years the parser produces, C's truncated `%` agrees with the
mathematical remainder). -/
theorem checkLeap_iff (y : Int) (hy : 0 ≤ y) (h mi s : Int) :
    checkLeap ⟨y, 2, 29, h, mi, s⟩ = SigV4Status.Success ↔
      (y % 4 = 0 ∧ (y % 100 ≠ 0 ∨ y % 400 = 0)) := by
  unfold checkLeap
  rw [Int.tmod_eq_emod hy (by omega), Int.tmod_eq_emod hy (by omega),
    Int.tmod_eq_emod hy (by omega)]
  norm_num
  constructor
  · intro hcl
    by_cases h400 : (400 : Int) ∣ y
    · exact ⟨by omega, Or.inr h400⟩
    · by_cases h4 : (4 : Int) ∣ y
      · by_cases h100 : (100 : Int) ∣ y
        · exact absurd (hcl h400 (Or.inr h100)) (by decide)
        · exact ⟨h4, Or.inl h100⟩
      · exact absurd (hcl h400 (Or.inl h4)) (by decide)
  · rintro ⟨h4, hor⟩ h400 hor2
    rcases hor with h100 | h400'
    · rcases hor2 with h4' | h100' <;> tauto
    · tauto

/-- `checkLeap` never returns anything but `Success` or the formatting
error. -/
theorem checkLeap_dichotomy (d : SigV4DateTime) :
    checkLeap d = SigV4Status.Success ∨ checkLeap d = SigV4Status.ISOFormattingError := by
  unfold checkLeap
  split_ifs <;> simp

/-! ## Claim theorems -/

/-- **C6.** For every successfully parsed date, day 29 of month 2 is accepted
exactly when the year is a leap year by the Gregorian rule
`(year mod 4 = 0) ∧ (year mod 100 ≠ 0 ∨ year mod 400 = 0)`, and otherwise
date validation returns `SigV4ISOFormattingError`; in particular
February 29 is accepted for 2000 and 2004 and rejected for 1900 and 1998.
(Parsed dates have non-negative fields; the remaining fields are assumed to
pass their own range checks, year ≥ 1900, hour ≤ 23, minute ≤ 59,
second ≤ 60, so that the day check alone decides the result.) -/
theorem feb29_accepted_iff_leap (y h mi s : Int)
    (hy : 1900 ≤ y) (hh : h ≤ 23) (hmi : mi ≤ 59) (hs : s ≤ 60) :
    (validateDateTime ⟨y, 2, 29, h, mi, s⟩ = SigV4Status.Success ↔
      (y % 4 = 0 ∧ (y % 100 ≠ 0 ∨ y % 400 = 0))) ∧
    (¬(y % 4 = 0 ∧ (y % 100 ≠ 0 ∨ y % 400 = 0)) →
      validateDateTime ⟨y, 2, 29, h, mi, s⟩ = SigV4Status.ISOFormattingError) ∧
    validateDateTime ⟨2000, 2, 29, h, mi, s⟩ = SigV4Status.Success ∧
    validateDateTime ⟨2004, 2, 29, h, mi, s⟩ = SigV4Status.Success ∧
    validateDateTime ⟨1900, 2, 29, h, mi, s⟩ = SigV4Status.ISOFormattingError ∧
    validateDateTime ⟨1998, 2, 29, h, mi, s⟩ = SigV4Status.ISOFormattingError := by
  have key : ∀ z : Int, 1900 ≤ z →
      (validateDateTime ⟨z, 2, 29, h, mi, s⟩ = SigV4Status.Success ↔
        (z % 4 = 0 ∧ (z % 100 ≠ 0 ∨ z % 400 = 0))) := by
    intro z hz
    rw [validate_feb29 z h mi s hz hh hmi hs]
    exact checkLeap_iff z (by omega) h mi s
  have keyErr : ∀ z : Int, 1900 ≤ z → ¬(z % 4 = 0 ∧ (z % 100 ≠ 0 ∨ z % 400 = 0)) →
      validateDateTime ⟨z, 2, 29, h, mi, s⟩ = SigV4Status.ISOFormattingError := by
    intro z hz hnl
    rw [validate_feb29 z h mi s hz hh hmi hs]
    rcases checkLeap_dichotomy ⟨z, 2, 29, h, mi, s⟩ with hc | hc
    · exact absurd ((checkLeap_iff z (by omega) h mi s).mp hc) hnl
    · exact hc
  exact ⟨key y hy, keyErr y hy,
    (key 2000 (by norm_num)).mpr (by decide),
    (key 2004 (by norm_num)).mpr (by decide),
    keyErr 1900 (by norm_num) (by decide),
    keyErr 1998 (by norm_num) (by decide)⟩

/-- Witness for `feb29_accepted_iff_leap` at year 2024 (a leap year),
12:30:45. -/
theorem feb29_accepted_iff_leap_witness :
    validateDateTime ⟨2024, 2, 29, 12, 30, 45⟩ = SigV4Status.Success :=
  (feb29_accepted_iff_leap 2024 12 30 45 (by norm_num) (by norm_num) (by norm_num)
    (by norm_num)).1.mpr (by decide)

/-- **C7.** For every input byte string and declared output capacity,
`SigV4_AwsIotDateToIso8601` writes exactly 16 bytes into the output buffer
when it returns `SigV4Success`, and writes no byte at all when it returns
any error status (the second component of the model is the list of bytes
the function stores, in order, from output index 0). -/
theorem dateToIso_frame (pDate : List Nat) (cap : Nat) :
    ((SigV4_AwsIotDateToIso8601 pDate cap).1 = SigV4Status.Success →
      (SigV4_AwsIotDateToIso8601 pDate cap).2.length = 16) ∧
    ((SigV4_AwsIotDateToIso8601 pDate cap).1 ≠ SigV4Status.Success →
      (SigV4_AwsIotDateToIso8601 pDate cap).2 = []) := by
  unfold SigV4_AwsIotDateToIso8601
  rcases hp : parseDate pDate (if pDate.length = 20 then FORMAT_RFC_3339 else FORMAT_RFC_5322)
    with ⟨st, d⟩
  split_ifs <;> simp_all [intToAscii_length] <;> split_ifs <;> simp_all [intToAscii_length]

/-- Witness for `dateToIso_frame`: an accepted RFC 3339 date yields 16
written bytes, and the invalid leap day 1998-02-29 yields none. -/
theorem dateToIso_frame_witness :
    (SigV4_AwsIotDateToIso8601 (asc "2018-01-18T09:18:06Z") 16).2.length = 16 ∧
    (SigV4_AwsIotDateToIso8601 (asc "1998-02-29T03:21:09Z") 16).2 = [] :=
  ⟨(dateToIso_frame (asc "2018-01-18T09:18:06Z") 16).1 (by decide),
   (dateToIso_frame (asc "1998-02-29T03:21:09Z") 16).2 (by decide)⟩

/-- **C3** (code bug).  `verifySigV4Parameters` rejects a parameter struct
whose only NULL members are the optional `pSecurityToken` (or the optional
`pExpiration`): flipping that single member between NULL and non-NULL flips
the result between `SigV4InvalidParameter` and `SigV4Success`, contradicting
the claim (and the header's own documentation, which says the security token
"can be NULL"). -/
theorem securityToken_null_rejected :
    verifySigV4Parameters (some
      { pCredentials := some
          { pAccessKeyId := some (asc "AKIDEXAMPLE")
            pSecretAccessKey := some (asc "wJalrXUtnFEMI")
            pSecurityToken := none
            pExpiration := some (asc "exp") }
        pDateIso8601 := some (asc "20150830T123600Z")
        pRegion := some (asc "us-east-1")
        pService := some (asc "service")
        pCryptoInterface := some { pHashContext := some (), hashBlockLen := 64, hashDigestLen := 32 }
        pHttpParameters := some { pHttpMethod := some (asc "GET"), pHeaders := some (asc "h") } })
      128 64 = SigV4Status.InvalidParameter ∧
    verifySigV4Parameters (some
      { pCredentials := some
          { pAccessKeyId := some (asc "AKIDEXAMPLE")
            pSecretAccessKey := some (asc "wJalrXUtnFEMI")
            pSecurityToken := some (asc "token")
            pExpiration := none }
        pDateIso8601 := some (asc "20150830T123600Z")
        pRegion := some (asc "us-east-1")
        pService := some (asc "service")
        pCryptoInterface := some { pHashContext := some (), hashBlockLen := 64, hashDigestLen := 32 }
        pHttpParameters := some { pHttpMethod := some (asc "GET"), pHeaders := some (asc "h") } })
      128 64 = SigV4Status.InvalidParameter ∧
    verifySigV4Parameters (some
      { pCredentials := some
          { pAccessKeyId := some (asc "AKIDEXAMPLE")
            pSecretAccessKey := some (asc "wJalrXUtnFEMI")
            pSecurityToken := some (asc "token")
            pExpiration := some (asc "exp") }
        pDateIso8601 := some (asc "20150830T123600Z")
        pRegion := some (asc "us-east-1")
        pService := some (asc "service")
        pCryptoInterface := some { pHashContext := some (), hashBlockLen := 64, hashDigestLen := 32 }
        pHttpParameters := some { pHttpMethod := some (asc "GET"), pHeaders := some (asc "h") } })
      128 64 = SigV4Status.Success := by
  refine ⟨rfl, rfl, rfl⟩

/-- **C9** (code bug).  `encodeURI` with input `"ab"` and a destination of
declared capacity 1 stores the verbatim byte `'b'` at destination index 1
(position `i` of the returned byte list is the store at index `i`), i.e. at
the capacity, and only then reports `SigV4InsufficientMemory`: the verbatim
branch stores before any capacity check. -/
theorem encodeURI_stores_at_capacity :
    encodeURI (asc "ab") 1 true false = (SigV4Status.InsufficientMemory, asc "ab") ∧
    (1, 'b'.toNat) ∈ storesFrom 0 (encodeURI (asc "ab") 1 true false).2 := by
  refine ⟨rfl, by decide⟩

/-- **C10** (code bug).  `generateAuthorizationValuePrefix` — called by
`SigV4_GenerateHTTPAuthorization` with `pAuthBuf` and `*authBufLen` —
detects that the Authorization prefix plus the hex signature does not fit in
the declared capacity 25, returns `SigV4InsufficientMemory`, and still
performs stores at indices at and beyond 25: the prefix write is not guarded
by the size check. -/
theorem authPrefix_stores_past_capacity :
    (generateAuthorizationValuePrefixC (asc "A") (asc "K") (asc "20180118T091806Z")
        (asc "r") (asc "s") (asc "h") 1 25).status = SigV4Status.InsufficientMemory ∧
    ((generateAuthorizationValuePrefixC (asc "A") (asc "K") (asc "20180118T091806Z")
        (asc "r") (asc "s") (asc "h") 1 25).stores.any fun st => 25 ≤ st.1) = true := by
  refine ⟨rfl, by decide⟩

/-- **C4** (amended).  For every query within the configured pair limit and
every sorted permutation of its parsed pairs (the `qsort` contract for the
external sort the source calls), a successful canonical-query generation
emits each pair as its URI-encoded field (`encodeSlash=true,
doubleEncodeEquals=false`) followed — *only when the value is nonempty* —
by `=` and the URI-encoded value (`encodeSlash=true,
doubleEncodeEquals=true`); pairs are separated by `&` and the line ends
with a single `\n`.  (The original claim's `=` after empty-value pairs is
refuted by `emptyValue_pair_emitted_without_equals`.) -/
theorem canonicalQuery_emission (q : List Nat) (sorted : List QPair) (rem maxP : Nat)
    (hperm : (setQueryStringFieldsAndValues q maxP).Perm sorted)
    (hok : (generateCanonicalQuery q sorted rem maxP).1 = SigV4Status.Success) :
    (generateCanonicalQuery q sorted rem maxP).2
      = joinAmp (sorted.map codeQueryPairEmission) ++ ['\n'.toNat] ∧
    ∀ p ∈ setQueryStringFieldsAndValues q maxP,
      codeQueryPairEmission p ∈ sorted.map codeQueryPairEmission := by
  unfold generateCanonicalQuery at hok ⊢
  by_cases hc : (setQueryStringFieldsAndValues q maxP).length > maxP
  · rw [if_pos hc] at hok
    exact absurd hok (by simp)
  · rw [if_neg hc] at hok ⊢
    simp only at hok ⊢
    by_cases hw : (writeCanonicalQueryParameters sorted rem).1 = SigV4Status.Success
    · rw [if_pos hw]
      refine ⟨?_, ?_⟩
      · simp only
        unfold writeCanonicalQueryParameters at hw ⊢
        rw [writeCQPLoop_success sorted rem [] hw]
        simp
      · intro p hp
        exact List.mem_map_of_mem _ (hperm.subset hp)
    · rw [if_neg hw] at hok
      exact absurd hok hw

/-- Witness for `canonicalQuery_emission` on the query `"x=1&y"` with its
(already sorted) parsed pairs. -/
theorem canonicalQuery_emission_witness :
    (generateCanonicalQuery (asc "x=1&y") [([120], [49]), ([121], [])] 50 5).2
      = joinAmp (([([120], [49]), ([121], [])] : List QPair).map codeQueryPairEmission)
          ++ ['\n'.toNat] ∧
    ∀ p ∈ setQueryStringFieldsAndValues (asc "x=1&y") 5,
      codeQueryPairEmission p
        ∈ ([([120], [49]), ([121], [])] : List QPair).map codeQueryPairEmission :=
  canonicalQuery_emission (asc "x=1&y") [([120], [49]), ([121], [])] 50 5
    (by decide) (by decide)

/-- **C5 counterexample.**  `cmpQueryFieldValue` returns 0 for the distinct
pairs `("a\0b", "x")` and `("a\0c", "x")`: `strncmp` stops at the common NUL
byte, so the comparator is not the byte-lexicographic comparison of the
fields and does return zero for distinct pairs. -/
theorem cmpQuery_zero_on_distinct :
    cmpQueryFieldValue ([97, 0, 98], [120]) ([97, 0, 99], [120]) = 0 ∧
    (([97, 0, 98], [120]) : QPair) ≠ ([97, 0, 99], [120]) := by
  refine ⟨rfl, by decide⟩

/-- **C2.** For every key (supplied in any number of `hmacKey` fragments)
and message, over any hash provider whose digests have the declared length
`D ≤ B`, the sequence `hmacKey*; hmacData; hmacFinal` starting from a fresh
context writes `H((K0 ⊕ opad) ‖ H((K0 ⊕ ipad) ‖ M))`, where `K0` is the key
zero-padded to the block length `B` (or its zero-padded digest when longer
than a block), `ipad = 0x36…`, `opad = 0x5c…` — the standard HMAC
(`hmacSpec`, transcribed from the specification). -/
theorem hmacSequence_is_standard_hmac (hs : HashSpec) (hgood : GoodHash hs)
    (ks : List (List Nat)) (M : List Nat) :
    (hmacFinal hs (hmacData hs (feedKey hs {} ks) M)).1 = hmacSpec hs ks.flatten M := by
  have hinv := feedKey_inv hs ks {} [] (keyInv_zero hs {} rfl)
  rw [List.nil_append] at hinv
  exact hmac_data_final hs hgood _ _ M hinv

/-- Witness for `hmacSequence_is_standard_hmac`: a key split in two
fragments whose total length 5 exceeds the witness block length 4,
exercising the hash-down path. -/
theorem hmacSequence_witness :
    (hmacFinal witnessHash (hmacData witnessHash
        (feedKey witnessHash {} [[1, 2], [3, 4, 5]]) [9])).1
      = hmacSpec witnessHash [1, 2, 3, 4, 5] [9] :=
  hmacSequence_is_standard_hmac witnessHash ⟨fun l => rfl, by decide⟩ [[1, 2], [3, 4, 5]] [9]

/-- **C1.** Whenever the signing-key buffer holds at least two digests (the
function's own precondition; with less it reports an error) and the hash
provider meets its contract, `generateSigningKey` succeeds and the produced
signing key is the chained standard HMAC
`HMAC(HMAC(HMAC(HMAC("AWS4" ‖ secret, date₈), region), service),
"aws4_request")` over the caller's hash, with `date₈` the first 8 bytes
(`YYYYMMDD`) of the ISO 8601 date. -/
theorem generateSigningKey_correct (hs : HashSpec) (hgood : GoodHash hs)
    (secret dateIso8601 region service : List Nat) (br : Nat)
    (hbr : 2 * hs.digestLen ≤ br) :
    generateSigningKey hs secret dateIso8601 region service br
      = (SigV4Status.Success, some (specSigningKey hs secret dateIso8601 region service)) := by
  have inv1 : KeyInv hs (hmacKey hs {} SIGV4_HMAC_SIGNING_KEY_PREFIX)
      SIGV4_HMAC_SIGNING_KEY_PREFIX := by
    have := hmacKey_inv hs {} [] SIGV4_HMAC_SIGNING_KEY_PREFIX (keyInv_zero hs {} rfl)
    simpa using this
  simp only [generateSigningKey]
  rw [completeHmac_eq hs hgood _ _ secret _ br inv1 (by omega)]
  simp only
  rw [completeHmac_eq hs hgood _ [] _ region (br - hs.digestLen) (keyInv_zero hs _ rfl)
    (by omega)]
  simp only [List.nil_append]
  rw [completeHmac_eq hs hgood _ [] _ service hs.digestLen (keyInv_zero hs _ rfl) le_rfl]
  simp only [List.nil_append]
  rw [completeHmac_eq hs hgood _ [] _ CREDENTIAL_SCOPE_TERMINATOR hs.digestLen
    (keyInv_zero hs _ rfl) le_rfl]
  simp only [List.nil_append]
  rw [if_neg (by omega)]
  simp only [specSigningKey, SIGV4_HMAC_SIGNING_KEY_PREFIX, CREDENTIAL_SCOPE_TERMINATOR,
    ISO_DATE_SCOPE_LEN]

/-- Witness for `generateSigningKey_correct` on the witness hash with a
buffer of exactly two digests. -/
theorem generateSigningKey_witness :
    generateSigningKey witnessHash [7, 8, 9] (asc "20150830T123600Z") [10] [11] 4
      = (SigV4Status.Success,
          some (specSigningKey witnessHash [7, 8, 9] (asc "20150830T123600Z") [10] [11])) :=
  generateSigningKey_correct witnessHash ⟨fun l => rfl, by decide⟩ [7, 8, 9]
    (asc "20150830T123600Z") [10] [11] 4 (by decide)

/-- **C5** (amended).  For NUL-free pairs — `strncmp` stops at NUL bytes,
refuted for NUL-containing pairs by `cmpQuery_zero_on_distinct` —
`cmpQueryFieldValue` orders primarily by byte-lexicographic comparison of
the fields (shorter prefix first), then on field equality by the values,
and returns zero exactly on identical pairs (so never zero for distinct
pairs); consequently, in any output of the external sort satisfying the
`qsort` contract (pairwise `cmp ≤ 0`), every occurrence of `(k, v1)` with
`v1 < v2` precedes every occurrence of `(k, v2)`, so the canonical query
emits `(k, v1)` first. -/
theorem cmpQuery_lex_order :
    (∀ p q : QPair, noNul p.1 → noNul p.2 → noNul q.1 → noNul q.2 →
      ((cmpQueryFieldValue p q < 0 ↔
          (lexLt p.1 q.1 = true ∨ (p.1 = q.1 ∧ lexLt p.2 q.2 = true))) ∧
        (cmpQueryFieldValue p q = 0 ↔ p = q))) ∧
    (∀ (out : List QPair) (k v1 v2 : List Nat), noNul k → noNul v1 → noNul v2 →
      lexLt v1 v2 = true →
      List.Pairwise (fun p q => cmpQueryFieldValue p q ≤ 0) out →
      ∀ (i j : Fin out.length), out.get i = (k, v1) → out.get j = (k, v2) →
        (i : Nat) < (j : Nat)) := by
  have main : ∀ p q : QPair, noNul p.1 → noNul p.2 → noNul q.1 → noNul q.2 →
      ((cmpQueryFieldValue p q < 0 ↔
          (lexLt p.1 q.1 = true ∨ (p.1 = q.1 ∧ lexLt p.2 q.2 = true))) ∧
        (cmpQueryFieldValue p q = 0 ↔ p = q)) := by
    intro p q hp1 hp2 hq1 hq2
    obtain ⟨k1, k2, k3⟩ := cmpStage_trichotomy p.1 q.1 hp1 hq1
    obtain ⟨v1iff, v2iff, v3iff⟩ := cmpStage_trichotomy p.2 q.2 hp2 hq2
    rw [cmp_eq_stage]
    by_cases hk : cmpStage p.1 q.1 = 0
    · have hkeq : p.1 = q.1 := k2.mp hk
      rw [if_pos hk]
      constructor
      · rw [v1iff]
        constructor
        · intro hv
          exact Or.inr ⟨hkeq, hv⟩
        · intro hor
          rcases hor with hlex | ⟨_, hv⟩
          · rw [hkeq] at hlex
            rw [lexLt_irrefl q.1 hq1] at hlex
            exact absurd hlex (by simp)
          · exact hv
      · rw [v2iff]
        constructor
        · intro hveq
          exact Prod.ext hkeq hveq
        · intro hpq
          rw [hpq]
    · rw [if_neg hk]
      constructor
      · rw [k1]
        constructor
        · exact fun h => Or.inl h
        · intro hor
          rcases hor with hlex | ⟨hkeq, _⟩
          · exact hlex
          · exact absurd (k2.mpr hkeq) hk
      · constructor
        · intro h
          exact absurd h hk
        · intro hpq
          exact absurd (k2.mpr (congrArg Prod.fst hpq)) hk
  refine ⟨main, ?_⟩
  intro out k v1 v2 hk hv1 hv2 hlt hpw i j hi hj
  have hpos : 0 < cmpQueryFieldValue (k, v2) (k, v1) := by
    rw [cmp_eq_stage]
    simp only
    rw [if_pos ((cmpStage_trichotomy k k hk hk).2.1.mpr rfl)]
    exact (cmpStage_trichotomy v2 v1 hv2 hv1).2.2.mpr hlt
  rcases Nat.lt_trichotomy (i : Nat) (j : Nat) with h | h | h
  · exact h
  · exfalso
    have : (k, v1) = ((k, v2) : QPair) := by
      rw [← hi, ← hj]
      congr 1
      exact Fin.ext h
    have hv : v1 = v2 := congrArg Prod.snd this
    rw [hv] at hlt
    rw [lexLt_irrefl v2 hv2] at hlt
    exact absurd hlt (by simp)
  · exfalso
    have hle := List.pairwise_iff_get.mp hpw j i (by omega)
    rw [hi, hj] at hle
    omega

/-- Witness for `cmpQuery_lex_order`: the spec's tie-break example
`param=value1` before `param=value2`. -/
theorem cmpQuery_lex_order_witness :
    cmpQueryFieldValue (asc "param", asc "value1") (asc "param", asc "value2") < 0 :=
  (cmpQuery_lex_order.1 (asc "param", asc "value1") (asc "param", asc "value2")
    (by decide) (by decide) (by decide) (by decide)).1.mpr (Or.inr ⟨rfl, by decide⟩)

/-- **C4 counterexample.**  For the query `"a&b=c"` (two parsed pairs, the
first with an empty value, already in sorted order — the comparator is
strictly negative on the pair), the code emits the canonical query line
`"a&b=c\n"`, while the claim prescribes `field '=' value` for *every* pair,
i.e. the line `"a=&b=c\n"` (`specQueryPairEmission` is the claim's emission,
transcribed from the spec).  The two differ. -/
theorem emptyValue_pair_emitted_without_equals :
    setQueryStringFieldsAndValues (asc "a&b=c") 5 = [(asc "a", []), (asc "b", asc "c")] ∧
    cmpQueryFieldValue (asc "a", []) (asc "b", asc "c") < 0 ∧
    generateCanonicalQuery (asc "a&b=c") [(asc "a", []), (asc "b", asc "c")] 100 5 =
      (SigV4Status.Success, asc "a&b=c" ++ ['\n'.toNat]) ∧
    joinAmp (([(asc "a", []), (asc "b", asc "c")] : List QPair).map specQueryPairEmission) ++
        ['\n'.toNat] = asc "a=&b=c" ++ ['\n'.toNat] ∧
    asc "a&b=c" ++ ['\n'.toNat] ≠ asc "a=&b=c" ++ ['\n'.toNat] := by
  refine ⟨by decide, by decide, by decide, by decide, by decide⟩

end SigV4Proof

namespace SigV4Proof

theorem drop_append_len {α : Type} (xs ys : List α) (n : Nat) (h : xs.length = n) :
    (xs ++ ys).drop n = ys := by
  rw [← h, List.drop_left]

theorem scanDigits_all (ds : List Nat) :
    ∀ (tail : List Nat) (r : Int), (∀ c ∈ ds, 48 ≤ c ∧ c ≤ 57) →
      scanDigitsLoop (ds ++ tail) ds.length r
        = (ds.foldl (fun (a : Int) (c : Nat) => a * 10 + ((c : Int) - 48)) r, 0) := by
  induction ds with
  | nil => intro tail r _; simp [scanDigitsLoop]
  | cons c ds ih =>
    intro tail r hd
    have hc := hd c (List.mem_cons_self c ds)
    simp only [List.cons_append, List.length_cons, scanDigitsLoop, List.foldl_cons]
    rw [if_pos hc]
    exact ih tail (r * 10 + ((c : Int) - 48)) fun x hx => hd x (List.mem_cons_of_mem c hx)

theorem intToAscii_digits (w : Nat) :
    ∀ (v : Int), 0 ≤ v → ∀ c ∈ intToAscii v w, 48 ≤ c ∧ c ≤ 57 := by
  induction w with
  | zero => intro v _ c hc; simp [intToAscii] at hc
  | succ w ih =>
    intro v hv c hc
    simp only [intToAscii, List.mem_append, List.mem_singleton] at hc
    rcases hc with hc | hc
    · exact ih (v.tdiv 10) (Int.tdiv_nonneg hv (by norm_num)) c hc
    · have htm : v.tmod 10 = v % 10 := Int.tmod_eq_emod hv (by norm_num)
      subst hc
      rw [htm]
      omega

theorem foldl_intToAscii (w : Nat) :
    ∀ (v r : Int), 0 ≤ v → v < 10 ^ w →
      (intToAscii v w).foldl (fun (a : Int) (c : Nat) => a * 10 + ((c : Int) - 48)) r
        = r * 10 ^ w + v := by
  induction w with
  | zero =>
    intro v r hv hvw
    simp only [intToAscii, List.foldl_nil, pow_zero] at hvw ⊢
    omega
  | succ w ih =>
    intro v r hv hvw
    have hdiv0 : 0 ≤ v.tdiv 10 := Int.tdiv_nonneg hv (by norm_num)
    have htd : v.tdiv 10 = v / 10 := Int.tdiv_eq_ediv hv (by norm_num)
    have htm : v.tmod 10 = v % 10 := Int.tmod_eq_emod hv (by norm_num)
    have hpow : (10 : Int) ^ (w + 1) = 10 ^ w * 10 := pow_succ 10 w
    have hdivlt : v.tdiv 10 < 10 ^ w := by
      rw [htd]
      have h1 : 0 < (10 : Int) ^ w := by positivity
      omega
    simp only [intToAscii, List.foldl_append, List.foldl_cons, List.foldl_nil]
    rw [ih (v.tdiv 10) r hdiv0 hdivlt, htd, htm]
    have hre : r * 10 ^ (w + 1) = (r * 10 ^ w) * 10 := by
      rw [hpow]
      ring
    omega

end SigV4Proof

namespace SigV4Proof

theorem scanValue_digits (fc : Nat) (v : Nat) (w : Nat) (tail : List Nat) (d : SigV4DateTime)
    (hfc : fc ≠ '*'.toNat) (hnm : ¬(fc = 'M'.toNat ∧ w = 3)) (hv : v < 10 ^ w) :
    scanValue (intToAscii (v : Int) w ++ tail) fc w d = (false, addToDate fc (v : Int) d) := by
  have hvz : (0 : Int) ≤ (v : Int) := Int.ofNat_nonneg v
  have hvi : (v : Int) < 10 ^ w := by exact_mod_cast hv
  have hsc := scanDigits_all (intToAscii (v : Int) w) tail 0
    (intToAscii_digits w (v : Int) hvz)
  rw [intToAscii_length] at hsc
  simp only [scanValue]
  rw [if_neg hfc, if_neg hnm, hsc, foldl_intToAscii w (v : Int) 0 hvz hvi]
  norm_num

theorem scanValue_skip (pLoc : List Nat) (w : Nat) (d : SigV4DateTime) :
    scanValue pLoc '*'.toNat w d = (false, d) := by
  simp [scanValue, scanDigitsLoop, addToDate]

end SigV4Proof

namespace SigV4Proof

theorem range12 : List.range 12 = [0, 1, 2, 3, 4, 5, 6, 7, 8, 9, 10, 11] := by decide

theorem monthAbbrev_length (mo : Nat) (h1 : 1 ≤ mo) (h12 : mo ≤ 12) :
    (monthNames.getD (mo - 1) []).length = 3 := by
  interval_cases mo <;> decide

theorem scanValue_month (mo : Nat) (h1 : 1 ≤ mo) (h12 : mo ≤ 12) (tail : List Nat)
    (d : SigV4DateTime) :
    scanValue (monthNames.getD (mo - 1) [] ++ tail) 'M'.toNat 3 d
      = (false, addToDate 'M'.toNat (mo : Int) d) := by
  interval_cases mo <;>
    simp [scanValue, monthMatch, range12, List.find?, monthNames, asc, strncmpC]

end SigV4Proof

namespace SigV4Proof

theorem parseLoop_literal (c : Nat) (inp : List Nat) (d : SigV4DateTime) (fmt : List Nat)
    (hc : c ≠ '%'.toNat) :
    parseLoop (c :: inp) d false (c :: fmt) = parseLoop inp d false fmt := by
  conv_lhs => rw [parseLoop.eq_def]
  simp only [Bool.false_eq_true, if_false]
  rw [if_neg hc]
  simp

theorem parseLoop_spec (w lch cch : Nat) (hw : lch - 48 = w) (xs tail : List Nat)
    (d d' : SigV4DateTime) (fmt : List Nat) (hxs : xs.length = w)
    (hscan : scanValue (xs ++ tail) cch w d = (false, d')) :
    parseLoop (xs ++ tail) d false (37 :: lch :: cch :: fmt)
      = parseLoop tail d' false fmt := by
  conv_lhs => rw [parseLoop.eq_def]
  simp only [Bool.false_eq_true, if_false, reduceIte, hw]
  rw [hscan]
  simp only [Bool.false_eq_true, if_false]
  rw [drop_append_len xs tail w hxs]
  rw [if_pos (by decide : (37 : Nat) = Char.toNat (Char.ofNat 37))]

theorem parseLoop_numfield (w lch cch : Nat) (hw : lch - 48 = w) (hcc1 : cch ≠ '*'.toNat)
    (hcc2 : ¬(cch = 'M'.toNat ∧ w = 3)) (v : Nat) (hv : v < 10 ^ w) (tail : List Nat)
    (d : SigV4DateTime) (fmt : List Nat) :
    parseLoop (intToAscii (v : Int) w ++ tail) d false (37 :: lch :: cch :: fmt)
      = parseLoop tail (addToDate cch (v : Int) d) false fmt :=
  parseLoop_spec w lch cch hw _ tail d _ fmt (intToAscii_length w _)
    (scanValue_digits cch v w tail d hcc1 hcc2 hv)

theorem parseLoop_monthfield (mo : Nat) (h1 : 1 ≤ mo) (h12 : mo ≤ 12) (tail : List Nat)
    (d : SigV4DateTime) (fmt : List Nat) :
    parseLoop (monthNames.getD (mo - 1) [] ++ tail) d false (37 :: 51 :: 77 :: fmt)
      = parseLoop tail (addToDate 77 (mo : Int) d) false fmt :=
  parseLoop_spec 3 51 77 rfl _ tail d _ fmt (monthAbbrev_length mo h1 h12)
    (scanValue_month mo h1 h12 tail d)

theorem parseLoop_skip3 (a b c : Nat) (tail : List Nat) (d : SigV4DateTime)
    (fmt : List Nat) :
    parseLoop (a :: b :: c :: tail) d false (37 :: 51 :: 42 :: fmt)
      = parseLoop tail d false fmt :=
  parseLoop_spec 3 51 42 rfl [a, b, c] tail d d fmt rfl (scanValue_skip _ 3 d)

theorem parseLoop_nil (d : SigV4DateTime) : parseLoop [] d false [] = (d, false) := rfl

end SigV4Proof

namespace SigV4Proof

theorem fmt3339_bytes : FORMAT_RFC_3339 =
    [37, 52, 89, 45, 37, 50, 77, 45, 37, 50, 68, 84, 37, 50, 104, 58,
     37, 50, 109, 58, 37, 50, 115, 90] := by decide

theorem fmt5322_bytes : FORMAT_RFC_5322 =
    [37, 51, 42, 44, 32, 37, 50, 68, 32, 37, 51, 77, 32, 37, 52, 89, 32,
     37, 50, 104, 58, 37, 50, 109, 58, 37, 50, 115, 32, 71, 77, 84] := by decide

theorem ascComma : asc ", " = [44, 32] := by decide

theorem ascGMT : asc " GMT" = [32, 71, 77, 84] := by decide

theorem parse3339 (y mo d h mi s : Nat) (hy : y < 10 ^ 4) (hmo : mo < 10 ^ 2)
    (hd : d < 10 ^ 2) (hh : h < 10 ^ 2) (hmi : mi < 10 ^ 2) (hs : s < 10 ^ 2) :
    parseLoop (render3339 y mo d h mi s) {} false FORMAT_RFC_3339
      = ({ tm_year := y, tm_mon := mo, tm_mday := d, tm_hour := h,
           tm_min := mi, tm_sec := s }, false) := by
  simp only [render3339, fmt3339_bytes, List.append_assoc, List.cons_append,
    List.nil_append]
  rw [parseLoop_numfield 4 52 89 rfl (by decide) (by decide) y hy,
      parseLoop_literal 45 _ _ _ (by decide),
      parseLoop_numfield 2 50 77 rfl (by decide) (by decide) mo hmo,
      parseLoop_literal 45 _ _ _ (by decide),
      parseLoop_numfield 2 50 68 rfl (by decide) (by decide) d hd,
      parseLoop_literal 84 _ _ _ (by decide),
      parseLoop_numfield 2 50 104 rfl (by decide) (by decide) h hh,
      parseLoop_literal 58 _ _ _ (by decide),
      parseLoop_numfield 2 50 109 rfl (by decide) (by decide) mi hmi,
      parseLoop_literal 58 _ _ _ (by decide),
      parseLoop_numfield 2 50 115 rfl (by decide) (by decide) s hs,
      parseLoop_literal 90 _ _ _ (by decide),
      parseLoop_nil]
  simp [addToDate]

theorem parse5322 (n1 n2 n3 y mo d h mi s : Nat) (h1 : 1 ≤ mo) (h12 : mo ≤ 12)
    (hy : y < 10 ^ 4) (hd : d < 10 ^ 2) (hh : h < 10 ^ 2) (hmi : mi < 10 ^ 2)
    (hs : s < 10 ^ 2) :
    parseLoop (render5322 n1 n2 n3 y mo d h mi s) {} false FORMAT_RFC_5322
      = ({ tm_year := y, tm_mon := mo, tm_mday := d, tm_hour := h,
           tm_min := mi, tm_sec := s }, false) := by
  simp only [render5322, fmt5322_bytes, ascComma, ascGMT, List.append_assoc,
    List.cons_append, List.nil_append]
  rw [parseLoop_skip3 n1 n2 n3,
      parseLoop_literal 44 _ _ _ (by decide),
      parseLoop_literal 32 _ _ _ (by decide),
      parseLoop_numfield 2 50 68 rfl (by decide) (by decide) d hd,
      parseLoop_literal 32 _ _ _ (by decide),
      parseLoop_monthfield mo h1 h12,
      parseLoop_literal 32 _ _ _ (by decide),
      parseLoop_numfield 4 52 89 rfl (by decide) (by decide) y hy,
      parseLoop_literal 32 _ _ _ (by decide),
      parseLoop_numfield 2 50 104 rfl (by decide) (by decide) h hh,
      parseLoop_literal 58 _ _ _ (by decide),
      parseLoop_numfield 2 50 109 rfl (by decide) (by decide) mi hmi,
      parseLoop_literal 58 _ _ _ (by decide),
      parseLoop_numfield 2 50 115 rfl (by decide) (by decide) s hs,
      parseLoop_literal 32 _ _ _ (by decide),
      parseLoop_literal 71 _ _ _ (by decide),
      parseLoop_literal 77 _ _ _ (by decide),
      parseLoop_literal 84 _ _ _ (by decide),
      parseLoop_nil]
  simp [addToDate]

theorem parseDate_render3339 (y mo d h mi s : Nat) (hy : y < 10 ^ 4)
    (hmo : mo < 10 ^ 2) (hd : d < 10 ^ 2) (hh : h < 10 ^ 2) (hmi : mi < 10 ^ 2)
    (hs : s < 10 ^ 2) :
    parseDate (render3339 y mo d h mi s) FORMAT_RFC_3339
      = (SigV4Status.Success,
         { tm_year := y, tm_mon := mo, tm_mday := d, tm_hour := h,
           tm_min := mi, tm_sec := s }) := by
  simp only [parseDate]
  rw [parse3339 y mo d h mi s hy hmo hd hh hmi hs]
  rfl

theorem parseDate_render5322 (n1 n2 n3 y mo d h mi s : Nat) (h1 : 1 ≤ mo)
    (h12 : mo ≤ 12) (hy : y < 10 ^ 4) (hd : d < 10 ^ 2) (hh : h < 10 ^ 2)
    (hmi : mi < 10 ^ 2) (hs : s < 10 ^ 2) :
    parseDate (render5322 n1 n2 n3 y mo d h mi s) FORMAT_RFC_5322
      = (SigV4Status.Success,
         { tm_year := y, tm_mon := mo, tm_mday := d, tm_hour := h,
           tm_min := mi, tm_sec := s }) := by
  simp only [parseDate]
  rw [parse5322 n1 n2 n3 y mo d h mi s h1 h12 hy hd hh hmi hs]
  rfl

theorem render3339_length (y mo d h mi s : Nat) :
    (render3339 y mo d h mi s).length = 20 := by
  simp [render3339, intToAscii_length]

theorem render5322_length (n1 n2 n3 y mo d h mi s : Nat) (h1 : 1 ≤ mo)
    (h12 : mo ≤ 12) :
    (render5322 n1 n2 n3 y mo d h mi s).length = 29 := by
  have h3 := monthAbbrev_length mo h1 h12
  simp only [List.getD, List.get?_eq_getElem?] at h3
  simp [render5322, intToAscii_length, asc]
  omega

/-- **C8**: a calendar instant rendered as RFC 5322 (29 bytes, any day name)
and as RFC 3339 (20 bytes) produces the same `SigV4_AwsIotDateToIso8601`
result for every output capacity. -/
theorem dateToIso_unfold20 (pDate : List Nat) (cap : Nat) (D : SigV4DateTime)
    (hlen : pDate.length = 20)
    (hp : parseDate pDate FORMAT_RFC_3339 = (SigV4Status.Success, D)) :
    SigV4_AwsIotDateToIso8601 pDate cap
      = if cap < 16 then (SigV4Status.InvalidParameter, [])
        else if validateDateTime D = SigV4Status.Success then
          (SigV4Status.Success,
            intToAscii D.tm_year 4 ++ intToAscii D.tm_mon 2 ++ intToAscii D.tm_mday 2 ++
            ['T'.toNat] ++ intToAscii D.tm_hour 2 ++ intToAscii D.tm_min 2 ++
            intToAscii D.tm_sec 2 ++ ['Z'.toNat])
        else (validateDateTime D, []) := by
  simp only [SigV4_AwsIotDateToIso8601, hlen, if_true, if_false]
  rw [hp]
  simp

theorem dateToIso_unfold29 (pDate : List Nat) (cap : Nat) (D : SigV4DateTime)
    (hlen : pDate.length = 29)
    (hp : parseDate pDate FORMAT_RFC_5322 = (SigV4Status.Success, D)) :
    SigV4_AwsIotDateToIso8601 pDate cap
      = if cap < 16 then (SigV4Status.InvalidParameter, [])
        else if validateDateTime D = SigV4Status.Success then
          (SigV4Status.Success,
            intToAscii D.tm_year 4 ++ intToAscii D.tm_mon 2 ++ intToAscii D.tm_mday 2 ++
            ['T'.toNat] ++ intToAscii D.tm_hour 2 ++ intToAscii D.tm_min 2 ++
            intToAscii D.tm_sec 2 ++ ['Z'.toNat])
        else (validateDateTime D, []) := by
  simp only [SigV4_AwsIotDateToIso8601, hlen]
  rw [if_neg (by decide : ¬((29 : Nat) ≠ 20 ∧ (29 : Nat) ≠ 29))]
  rw [if_neg (by decide : ¬((29 : Nat) = 20))]
  rw [hp]
  simp

/-- **C8**: a calendar instant rendered as RFC 5322 (29 bytes, any day name)
and as RFC 3339 (20 bytes) produces the same `SigV4_AwsIotDateToIso8601`
result for every output capacity. -/
theorem dateToIso_format_agreement (n1 n2 n3 y mo d h mi s cap : Nat)
    (h1 : 1 ≤ mo) (h12 : mo ≤ 12) (hy : y < 10 ^ 4) (hd : d < 10 ^ 2)
    (hh : h < 10 ^ 2) (hmi : mi < 10 ^ 2) (hs : s < 10 ^ 2) :
    SigV4_AwsIotDateToIso8601 (render5322 n1 n2 n3 y mo d h mi s) cap
      = SigV4_AwsIotDateToIso8601 (render3339 y mo d h mi s) cap := by
  have hmo' : mo < 10 ^ 2 := by
    have h100 : (10 : Nat) ^ 2 = 100 := by norm_num
    omega
  rw [dateToIso_unfold29 _ cap _ (render5322_length n1 n2 n3 y mo d h mi s h1 h12)
        (parseDate_render5322 n1 n2 n3 y mo d h mi s h1 h12 hy hd hh hmi hs),
      dateToIso_unfold20 _ cap _ (render3339_length y mo d h mi s)
        (parseDate_render3339 y mo d h mi s hy hmo' hd hh hmi hs)]

theorem dateToIso_format_agreement_witness :
    SigV4_AwsIotDateToIso8601 (render5322 87 101 100 2018 1 18 9 18 6) 16
      = SigV4_AwsIotDateToIso8601 (render3339 2018 1 18 9 18 6) 16
    ∧ SigV4_AwsIotDateToIso8601 (render3339 2018 1 18 9 18 6) 16
      = (SigV4Status.Success, asc "20180118T091806Z") :=
  ⟨dateToIso_format_agreement 87 101 100 2018 1 18 9 18 6 16 (by decide) (by decide)
     (by decide) (by decide) (by decide) (by decide) (by decide),
   by decide⟩

end SigV4Proof
